/-
  Verification of `stock_explorer.py` (Stock Data Explorer).

  This file gives a shallow embedding in Lean 4 of the parts of the program
  that the specification's claims are about:

  * the Python-level string primitives the script relies on
    (`str.strip`, `str.lower`, `str.replace(" ", "_")`, `str.endswith`,
    `int(...)` parsing, `datetime.strptime(_, "%Y-%m-%d")`),
  * the in-memory session list `all_stocks` and the update performed by
    `analyze_stock`,
  * `stock_summary_statistics` over a fetched table of daily OHLCV bars,
  * the CSV persistence functions `save_one_stock_to_csv` and
    `save_all_to_csv` acting on a model of the target file's contents,
  * the input-validation loops of `main`, `save_all_to_csv` and `exit_menu`.

  External effects (the network fetch in yfinance, matplotlib plotting,
  printing) are outside the model: fetched data and user input sequences are
  universally quantified parameters.  Numbers are modelled as `ℚ` instead of
  IEEE floats; where the script formats a float we format the rational, and
  where it takes a float square root we compute the floor of the scaled real
  square root (the deviation is stated at the definition).
-/
import Mathlib

namespace StockExplorer

/-! ### Python string primitives -/

/-- ASCII whitespace, the relevant fragment of the whitespace set stripped by
Python's `str.strip()` (full Unicode whitespace is outside the model). -/
def isSpaceChar (c : Char) : Bool :=
  c = ' ' || c = '\t' || c = '\n' || c = '\x0d' || c = '\x0b' || c = '\x0c'

/-- `str.strip()` on a list of characters: drop whitespace on both ends. -/
def stripChars (cs : List Char) : List Char :=
  ((cs.dropWhile isSpaceChar).reverse.dropWhile isSpaceChar).reverse

/-- `str.strip()`. -/
def pyStrip (s : String) : String := String.mk (stripChars s.data)

/-- `str.lower()` (ASCII case mapping; the inputs compared by the script are
single-letter answers, so the Unicode cases do not arise). -/
def pyLower (s : String) : String := String.mk (s.data.map Char.toLower)

/-- `str.replace(" ", "_")` on characters: the pattern is a single character,
so substring replacement is a pointwise map. -/
def underscoreSpace (c : Char) : Char := if c = ' ' then '_' else c

/-- `str.replace(" ", "_")`. -/
def pyReplaceSpace (s : String) : String := String.mk (s.data.map underscoreSpace)

/-- `" " in s`. -/
def pyContainsSpace (s : String) : Bool := s.data.any (· = ' ')

/-- `s.endswith(suffix)`. -/
def pyEndsWith (s suffixStr : String) : Bool := suffixStr.data.isSuffixOf s.data

def isDigitChar (c : Char) : Bool := '0' ≤ c && c ≤ '9'

def digitVal (c : Char) : ℕ := c.toNat - '0'.toNat

/-- Decimal value of a digit string. -/
def digitsVal (cs : List Char) : ℕ := cs.foldl (fun a c => 10 * a + digitVal c) 0

/-! ### `int(...)` (CPython `int` applied to a `str`)

`int(s)` strips surrounding whitespace, allows one optional sign, and then
requires a nonempty run of decimal digits in which single underscores may
appear between two digits (no leading, trailing or doubled underscore).
Non-ASCII digits are outside the model. -/

/-- The digits-with-underscores body accepted by `int`: nonempty, first and
last characters are digits, every character is a digit or an underscore, and
no two underscores are adjacent. -/
def intBodyOk (cs : List Char) : Bool :=
  !cs.isEmpty &&
  (cs.head?.all isDigitChar) &&
  (cs.getLast?.all isDigitChar) &&
  cs.all (fun c => isDigitChar c || c = '_') &&
  (cs.zip cs.tail).all (fun p => !(p.1 = '_' && p.2 = '_'))

/-- Value of an accepted `int` body: underscores are discarded. -/
def intBodyVal (cs : List Char) : ℕ := digitsVal (cs.filter isDigitChar)

/-- `int(s)` for a decimal string, returning `none` where CPython raises
`ValueError`. -/
def pyInt (s : String) : Option ℤ :=
  match stripChars s.data with
  | '+' :: rest => if intBodyOk rest then some (intBodyVal rest) else none
  | '-' :: rest => if intBodyOk rest then some (-(intBodyVal rest : ℤ)) else none
  | rest => if intBodyOk rest then some (intBodyVal rest) else none

/-! ### The numbered-menu validation loop

`main` reads `int(input(...).strip())` in a `while True` loop and leaves the
loop exactly when the parsed value lies between `lo` and `hi`; a `ValueError`
or an out-of-range value prints a message and re-prompts.  The user's replies
are modelled as the list of successive `input()` results; the loop returns
the accepted choice together with the unread replies, or `none` when the
replies run out. -/

def menuChoiceLoop (lo hi : ℤ) : List String → Option (ℤ × List String)
  | [] => none
  | s :: rest =>
    match pyInt (pyStrip s) with
    | some n => if lo ≤ n ∧ n ≤ hi then some (n, rest) else menuChoiceLoop lo hi rest
    | none => menuChoiceLoop lo hi rest

/-- The main-menu prompt of `main` accepts choices 1–4. -/
def mainMenuLoop (inputs : List String) : Option (ℤ × List String) :=
  menuChoiceLoop 1 4 inputs

/-! ### `exit_menu` -/

inductive ExitResult where
  | exited
  | returned
deriving DecidableEq

/-- `input(...).strip().lower()`. -/
def normAnswer (s : String) : String := pyLower (pyStrip s)

/-- `exit_menu`: reads an answer, calls `sys.exit` on `"y"`, returns on
`"n"`, re-prompts otherwise.  `none` means the supplied replies ran out with
the loop still prompting. -/
def exit_menu : List String → Option ExitResult
  | [] => none
  | s :: rest =>
    let c := normAnswer s
    if c = "y" then some ExitResult.exited
    else if c = "n" then some ExitResult.returned
    else exit_menu rest

/-! ### `validate_date`: `datetime.strptime(d, "%Y-%m-%d").date()`

CPython's `_strptime` compiles `"%Y-%m-%d"` to the regular expression
`(\d\d\d\d)-(1[0-2]|0[1-9]|[1-9])-(3[01]|[12]\d|0[1-9]|[1-9])` anchored at
the start, and raises `ValueError` when trailing characters remain.  Because
the month group must be followed by a literal `-` and the day group by the
end of the string, a string matches exactly when it splits as
`year ++ "-" ++ month ++ "-" ++ day` with a 4-digit year and 1-or-2-digit
month and day whose values lie in 1–12 and 1–31; `datetime.date` then
rejects year 0 and a day beyond the month's length. -/

structure PyDate where
  year : ℕ
  month : ℕ
  day : ℕ
deriving DecidableEq

/-- Gregorian leap year, as implemented by `datetime`. -/
def isLeapYear (y : ℕ) : Bool :=
  y % 4 = 0 && (y % 100 ≠ 0 || y % 400 = 0)

def daysInMonth (y m : ℕ) : ℕ :=
  if m = 2 then (if isLeapYear y then 29 else 28)
  else if m = 4 ∨ m = 6 ∨ m = 9 ∨ m = 11 then 30
  else 31

/-- A month or day field of the compiled `%m` / `%d` regex matched against a
complete segment: one or two digits whose value is in `1..hi` (the single
alternatives `0[1-9]`, `[1-9]`, `1[0-2]`, `3[01]`, `[12]\d` together accept
exactly these). -/
def fieldOk (cs : List Char) (hi : ℕ) : Bool :=
  (cs.length = 1 || cs.length = 2) && cs.all isDigitChar &&
  1 ≤ digitsVal cs && digitsVal cs ≤ hi

/-- Structural match of `"%Y-%m-%d"`: 4 digits, `-`, month segment, `-`,
day segment reaching the end of the string. -/
def parseYMD (cs : List Char) : Option (ℕ × ℕ × ℕ) :=
  match cs with
  | y1 :: y2 :: y3 :: y4 :: '-' :: rest =>
    if isDigitChar y1 && isDigitChar y2 && isDigitChar y3 && isDigitChar y4 then
      match rest.dropWhile (· ≠ '-') with
      | '-' :: dcs =>
        if fieldOk (rest.takeWhile (· ≠ '-')) 12 && fieldOk dcs 31 then
          some (digitsVal [y1, y2, y3, y4], digitsVal (rest.takeWhile (· ≠ '-')),
            digitsVal dcs)
        else none
      | _ => none
    else none
  | _ => none

/-- `validate_date`: `strptime` match followed by the `datetime.date`
constructor's calendar check (year 0 and day past the end of the month raise
`ValueError`, which the function catches, printing a message and returning
`None`). -/
def validate_date (s : String) : Option PyDate :=
  match parseYMD s.data with
  | some (y, m, d) =>
    if 1 ≤ y ∧ d ≤ daysInMonth y m then some ⟨y, m, d⟩ else none
  | none => none

/-- The claim's reading of well-formed `YYYY-MM-DD`: zero-padded 4-2-2 shape
and a valid calendar date.  (Spec side, for comparison with `validate_date`.) -/
def strictYMDOk (s : String) : Bool :=
  match s.data with
  | [y1, y2, y3, y4, '-', m1, m2, '-', d1, d2] =>
    [y1, y2, y3, y4, m1, m2, d1, d2].all isDigitChar &&
    (let y := digitsVal [y1, y2, y3, y4]
     let m := digitsVal [m1, m2]
     let d := digitsVal [d1, d2]
     1 ≤ y && 1 ≤ m && m ≤ 12 && 1 ≤ d && d ≤ daysInMonth y m)
  | _ => false

/-- Declarative description of the strings `validate_date` accepts: the
amended claim.  The year is exactly four digits; month and day are one or
two digits (zero padding optional); the values form a real calendar date
with year at least 1. -/
def FlexYMD (s : String) (dt : PyDate) : Prop :=
  ∃ ys ms ds : List Char,
    s.data = ys ++ '-' :: ms ++ '-' :: ds ∧
    ys.length = 4 ∧ ys.all isDigitChar ∧
    (ms.length = 1 ∨ ms.length = 2) ∧ ms.all isDigitChar ∧
    (ds.length = 1 ∨ ds.length = 2) ∧ ds.all isDigitChar ∧
    digitsVal ys = dt.year ∧ digitsVal ms = dt.month ∧ digitsVal ds = dt.day ∧
    1 ≤ dt.year ∧ 1 ≤ dt.month ∧ dt.month ≤ 12 ∧
    1 ≤ dt.day ∧ dt.day ≤ daysInMonth dt.year dt.month

/-! ### The data model

`validate_ticker` returns `{"ticker": t, "long_name": ...}`; the network
lookup itself is external, so a validated ticker is a parameter.  A fetched
table (`stock.history(...)`) is a list of daily bars indexed by date with
the pandas columns `Open`, `High`, `Low`, `Close`, `Volume`; prices and
volumes are modelled as `ℚ` in place of IEEE floats. -/

structure TickerInfo where
  ticker : String
  long_name : String
deriving DecidableEq

structure DayBar where
  date : PyDate
  Open : ℚ
  High : ℚ
  Low : ℚ
  Close : ℚ
  Volume : ℚ
deriving DecidableEq

/-- The summary record built by `stock_summary_statistics`: a dictionary with
exactly the fourteen keys `stat1`–`stat14`, all pre-formatted strings. -/
structure SumStats where
  stat1 : String
  stat2 : String
  stat3 : String
  stat4 : String
  stat5 : String
  stat6 : String
  stat7 : String
  stat8 : String
  stat9 : String
  stat10 : String
  stat11 : String
  stat12 : String
  stat13 : String
  stat14 : String
deriving DecidableEq

/-- The record's values in key order `stat1`, …, `stat14`. -/
def statsList (r : SumStats) : List String :=
  [r.stat1, r.stat2, r.stat3, r.stat4, r.stat5, r.stat6, r.stat7,
   r.stat8, r.stat9, r.stat10, r.stat11, r.stat12, r.stat13, r.stat14]

/-! ### Aggregates and float formatting -/

/-- `.mean()`. -/
def qmean (l : List ℚ) : ℚ := l.sum / (l.length : ℚ)

/-- `.max()` of a nonempty series (0 as the out-of-domain default). -/
def qmax : List ℚ → ℚ
  | [] => 0
  | x :: xs => xs.foldl max x

/-- `.min()` of a nonempty series (0 as the out-of-domain default). -/
def qmin : List ℚ → ℚ
  | [] => 0
  | x :: xs => xs.foldl min x

/-- `.pct_change().dropna()`: fractional change between consecutive entries;
`dropna` removes the leading `NaN`, leaving `n - 1` entries.  (A zero price
would give `inf` in pandas; in `ℚ`, division by zero gives 0.) -/
def pct_change : List ℚ → List ℚ
  | x :: y :: rest => (y - x) / x :: pct_change (y :: rest)
  | _ => []

/-- pandas `.std()`: sample variance with `ddof = 1`.  For fewer than two
entries pandas yields `NaN`; here the `ℚ` default 0 stands in. -/
def sample_variance (l : List ℚ) : ℚ :=
  if l.length ≤ 1 then 0
  else (l.map (fun x => (x - qmean l) ^ 2)).sum / ((l.length : ℚ) - 1)

/-- Digits of a natural number grouped in threes with `,`, working on the
reversed digit list. -/
def commaRev : List Char → List Char
  | a :: b :: c :: d :: rest => a :: b :: c :: ',' :: commaRev (d :: rest)
  | l => l

/-- The `,` format flag: decimal digits with thousands separators. -/
def groupDigits (n : ℕ) : String :=
  String.mk ((commaRev (toString n).data.reverse).reverse)

/-- Left-pad with zeros to width `n`. -/
def padZeros (s : String) (n : ℕ) : String :=
  String.mk (List.replicate (n - s.length) '0') ++ s

/-- `f"{q:,.<prec>f}"` for a nonnegative rational: round to `prec` decimal
places and group the integer part.  (Ties round half-up here; CPython rounds
the underlying binary float half-even, a sub-ulp deviation outside the
model.) -/
def fmtFixedNonneg (q : ℚ) (prec : ℕ) : String :=
  let m : ℕ := (round (q * (10 : ℚ) ^ prec)).toNat
  groupDigits (m / 10 ^ prec) ++ "." ++ padZeros (toString (m % 10 ^ prec)) prec

/-- `f"{q:,.<prec>f}"` with the sign emitted first. -/
def fmtFixed (q : ℚ) (prec : ℕ) : String :=
  if q < 0 then "-" ++ fmtFixedNonneg (-q) prec else fmtFixedNonneg q prec

/-- `f"${q:,.2f}"`. -/
def fmtDollar (q : ℚ) : String := "$" ++ fmtFixed q 2

/-- `f"{q:,.4f}%"`. -/
def fmtPercent (q : ℚ) : String := fmtFixed q 4 ++ "%"

/-- `f"{round(q):,}"` (Python `round` to the nearest integer; the half-even
tie rule is approximated half-up). -/
def fmtRoundGrouped (q : ℚ) : String :=
  let n : ℤ := round q
  if n < 0 then "-" ++ groupDigits n.natAbs else groupDigits n.toNat

/-- `⌊10 ^ 6 * √q⌋₊` for `0 ≤ q`, computed with integer arithmetic: with
`q = p / d` in lowest terms, `10 ^ 6 * √q = √(10 ^ 12 * p * d) / d`. -/
def ratSqrtFloorScaled (q : ℚ) : ℕ :=
  Nat.sqrt (10 ^ 12 * q.num.toNat * q.den) / q.den

/-- `f"{√q:,.6f}"`, the formatting applied to the float standard deviation
`returns.std()` when `q` is the sample variance (and to
`returns.std() * 252 ** 0.5` when `q` is 252 times the variance, since
`√252 * √v = √(252 * v)`).  The six decimals are produced by flooring the
scaled square root; CPython rounds the binary float instead, a sub-ulp
deviation outside the model. -/
def fmtVol (q : ℚ) : String :=
  let n := ratSqrtFloorScaled q
  groupDigits (n / 10 ^ 6) ++ "." ++ padZeros (toString (n % 10 ^ 6)) 6

/-- `YYYY-MM-DD` rendering of `pandas.Timestamp.date()` shown in `stat2`. -/
def dateStr (d : PyDate) : String :=
  padZeros (toString d.year) 4 ++ "-" ++ padZeros (toString d.month) 2 ++ "-" ++
    padZeros (toString d.day) 2

/-! ### `stock_summary_statistics` -/

/-- `stock_summary_statistics`, with the fetched `stock.history(...)` table
passed in: returns `None` when the table is empty, otherwise the dictionary
of fourteen formatted statistics built field by field as in the source. -/
def stock_summary_statistics (t : TickerInfo) (data : List DayBar) :
    Option SumStats :=
  match data with
  | [] => none
  | d0 :: rest =>
    let all := d0 :: rest
    let dLast := all.getLast (List.cons_ne_nil d0 rest)
    let closes := all.map DayBar.Close
    let returns := pct_change closes
    some
      { stat1 := t.ticker ++ " (" ++ t.long_name ++ ")"
        stat2 := dateStr d0.date ++ " to " ++ dateStr dLast.date
        stat3 := groupDigits all.length
        stat4 := fmtDollar d0.Open
        stat5 := fmtDollar dLast.Close
        stat6 := fmtDollar (qmean closes)
        stat7 := fmtDollar (qmax closes)
        stat8 := fmtDollar (qmax (all.map DayBar.High))
        stat9 := fmtDollar (qmin closes)
        stat10 := fmtDollar (qmin (all.map DayBar.Low))
        stat11 := fmtVol (sample_variance returns)
        stat12 := fmtVol (252 * sample_variance returns)
        stat13 := fmtPercent ((dLast.Close - d0.Open) / d0.Open * 100)
        stat14 := fmtRoundGrouped (qmean (all.map DayBar.Volume)) }

/-! ### `analyze_stock`: the session list update

After validation and a successful fetch, `analyze_stock` scans `all_stocks`
and returns the fresh statistics without appending when an entry matches on
both `stat1` and `stat2`; otherwise it appends.  The printing, validation
loops and the fetch are outside this step. -/

def analyze_stock_step (all_stocks : List SumStats) (r : SumStats) :
    List SumStats × SumStats :=
  if !all_stocks.isEmpty &&
      all_stocks.any (fun s => s.stat1 == r.stat1 && s.stat2 == r.stat2) then
    (all_stocks, r)
  else
    (all_stocks ++ [r], r)

/-- The session states reachable from `main`: `all_stocks` starts `[]`, and
`analyze_stock` is the only operation that modifies it (`list_stocks`,
`save_one_stock_to_csv`, `save_all_to_csv`, `view_stock_graph` only read
it). -/
inductive ReachableStocks : List SumStats → Prop where
  | start : ReachableStocks []
  | analyze (l : List SumStats) (r : SumStats) :
      ReachableStocks l → ReachableStocks (analyze_stock_step l r).1

/-! ### CSV persistence

A CSV file written by the program is modelled as `Option CsvFile`: `none`
when the file does not exist, otherwise a flag recording whether the header
line is present followed by the data rows.  A data row is the ordered
association list a `csv.DictReader` / `DictWriter` works with. -/

/-- The `summary_statistics_titles` list defined in `main`. -/
def summary_statistics_titles : List String :=
  ["Company: ", "Date Range: ", "Total Trading Days: ", "Opening Price: ",
   "Closing Price: ", "Average Closing Price: ", "Highest Closing Price: ",
   "Highest Intraday Price: ", "Lowest Closing Price: ",
   "Lowest Intraday Price: ", "Daily Price Volatility: ",
   "Annualized Price Volatility: ", "Total Return (%): ",
   "Average Daily Volume: "]

/-- `title.strip(": ").lower().replace(" ", "_")`: `str.strip(": ")` removes
the characters `:` and space from both ends. -/
def cleanTitle (s : String) : String :=
  let stripSet : Char → Bool := fun c => c = ':' || c = ' '
  let core := ((s.data.dropWhile stripSet).reverse.dropWhile stripSet).reverse
  String.mk ((core.map Char.toLower).map underscoreSpace)

/-- `cleaned_titles`, the snake_case CSV field names. -/
def cleaned_titles : List String := summary_statistics_titles.map cleanTitle

/-- A CSV data row as a `DictWriter` row: field name paired with value. -/
def CsvRow : Type := List (String × String)

instance : DecidableEq CsvRow := inferInstanceAs (DecidableEq (List (String × String)))

/-- `new_row = {title: sum_stats[f"stat{i+1}"] for i, title in enumerate(cleaned_titles)}`. -/
def rowOf (r : SumStats) : CsvRow := cleaned_titles.zip (statsList r)

structure CsvFile where
  hasHeader : Bool
  rows : List CsvRow
deriving DecidableEq

/-- The filename `save_one_stock_to_csv` builds:
`f"{stat1.split(' ')[0]}_{stat2.replace(' ', '_')}.csv"`. -/
def save_one_filename (r : SumStats) : String :=
  String.mk (r.stat1.data.takeWhile (· ≠ ' ')) ++ "_" ++ pyReplaceSpace r.stat2 ++ ".csv"

inductive SaveOutcome where
  | alreadySaved
  | appended
deriving DecidableEq

/-- `save_one_stock_to_csv`, acting on the contents of the target file
(`save_one_filename r`): scan the existing rows for one whose `date_range`
field equals the new row's `date_range`; on a hit print the already-saved
message and leave the file as it is, otherwise append the one new row,
writing the header first exactly when the file did not exist.  (A pre-existing
row lacking the `date_range` key would raise `KeyError` in Python; such
foreign files are outside the model.) -/
def save_one_stock_to_csv (file : Option CsvFile) (r : SumStats) :
    Option CsvFile × SaveOutcome :=
  let new_row := rowOf r
  match file with
  | none => (some ⟨true, [new_row]⟩, SaveOutcome.appended)
  | some f =>
    if f.rows.any (fun row => row.lookup "date_range" == new_row.lookup "date_range") then
      (some f, SaveOutcome.alreadySaved)
    else
      (some ⟨f.hasHeader, f.rows ++ [new_row]⟩, SaveOutcome.appended)

/-- The filename-normalisation loop of `save_all_to_csv`: re-prompt while the
stripped reply is empty, then append `".csv"` when that suffix is missing and
replace spaces by underscores. -/
def save_all_filename : List String → Option String
  | [] => none
  | s :: rest =>
    let t := pyStrip s
    if t = "" then save_all_filename rest
    else
      let t1 := if pyEndsWith t ".csv" then t else t ++ ".csv"
      some (if pyContainsSpace t1 then pyReplaceSpace t1 else t1)

/-- The file update performed by `save_all_to_csv`: one row per analyzed
stock, in order; the file is opened for reading only to learn whether it
exists (deciding whether a header is written), and every row is then
appended unconditionally. -/
def save_all_to_csv (file : Option CsvFile) (all_stocks : List SumStats) :
    Option CsvFile :=
  let rows := all_stocks.map rowOf
  match file with
  | none => some ⟨true, rows⟩
  | some f => some ⟨f.hasHeader, f.rows ++ rows⟩

/-! ### Concrete sample records, used by witnesses -/

/-- A concrete summary record as `stock_summary_statistics` would produce. -/
def recA : SumStats :=
  ⟨"AAPL (Apple Inc.)", "2023-01-03 to 2023-06-30", "124", "$130.28", "$193.97",
   "$165.00", "$193.97", "$194.48", "$125.02", "$124.17", "0.012000", "0.190500",
   "48.8809%", "58,000,000"⟩

/-- A second record with a different ticker and date range. -/
def recB : SumStats :=
  ⟨"MSFT (Microsoft Corporation)", "2023-01-03 to 2023-03-31", "62", "$243.08",
   "$288.30", "$260.00", "$288.30", "$289.27", "$222.31", "$219.35", "0.016000",
   "0.254000", "18.6027%", "30,000,000"⟩

/-- A concrete validated ticker. -/
def tickerAAPL : TickerInfo := ⟨"AAPL", "Apple Inc."⟩

/-- Three concrete daily bars, used by witnesses. -/
def barA : DayBar := ⟨⟨2023, 1, 3⟩, 130, 131, 124, 125, 112000000⟩

def barB : DayBar := ⟨⟨2023, 1, 4⟩, 127, 129, 125, 126, 89000000⟩

def barC : DayBar := ⟨⟨2023, 1, 5⟩, 127, 128, 124, 125, 81000000⟩

/-! ### Shared helper lemmas -/

/-- Two records matching on both `stat1` and `stat2` is what the boolean scan
in `analyze_stock` detects. -/
lemma analyze_scan_eq_true {l : List SumStats} {r : SumStats}
    (s : SumStats) (hs : s ∈ l) (h1 : s.stat1 = r.stat1) (h2 : s.stat2 = r.stat2) :
    (!l.isEmpty && l.any (fun s => s.stat1 == r.stat1 && s.stat2 == r.stat2)) = true := by
  have hne : l ≠ [] := List.ne_nil_of_mem hs
  simp only [Bool.and_eq_true, Bool.not_eq_true', List.any_eq_true]
  exact ⟨by simpa using hne, s, hs, by simp [h1, h2]⟩

/-- When the boolean scan fails, no stored record matches the fresh one on
both keys. -/
lemma analyze_scan_eq_false {l : List SumStats} {r : SumStats}
    (h : (!l.isEmpty && l.any (fun s => s.stat1 == r.stat1 && s.stat2 == r.stat2)) ≠ true) :
    ∀ s ∈ l, ¬(s.stat1 = r.stat1 ∧ s.stat2 = r.stat2) := by
  intro s hs hk
  exact h (analyze_scan_eq_true s hs hk.1 hk.2)

/-! ### C1 — deduplication invariant of the session list -/

/-- C1.  In every reachable session state, no two records of `all_stocks`
agree on both `stat1` (ticker and company name) and `stat2` (date range):
`analyze_stock` appends a record only after the scan found no entry matching
on both fields, and no other operation adds records. -/
theorem all_stocks_key_unique (l : List SumStats) (h : ReachableStocks l) :
    l.Pairwise (fun a b => ¬(a.stat1 = b.stat1 ∧ a.stat2 = b.stat2)) := by
  induction h with
  | start => exact List.Pairwise.nil
  | analyze l r _ ih =>
    by_cases hc :
        (!l.isEmpty && l.any (fun s => s.stat1 == r.stat1 && s.stat2 == r.stat2)) = true
    · simpa [analyze_stock_step, hc] using ih
    · have hnone := analyze_scan_eq_false hc
      simp only [analyze_stock_step, hc, if_false, Bool.false_eq_true]
      rw [List.pairwise_append]
      refine ⟨ih, List.pairwise_singleton _ _, ?_⟩
      intro a ha b hb
      rw [List.mem_singleton] at hb
      subst hb
      exact hnone a ha

/-- C1 witness: a concrete two-step session in which the same record is
analyzed twice and a different one once; the invariant holds at the
resulting state. -/
theorem all_stocks_key_unique_witness :
    ((analyze_stock_step (analyze_stock_step
        (analyze_stock_step [] recA).1 recA).1 recB).1).Pairwise
      (fun a b => ¬(a.stat1 = b.stat1 ∧ a.stat2 = b.stat2)) :=
  all_stocks_key_unique _
    (ReachableStocks.analyze _ recB
      (ReachableStocks.analyze _ recA
        (ReachableStocks.analyze [] recA ReachableStocks.start)))

/-! ### C8 — frame property of the duplicate path of `analyze_stock` -/

/-- C8.  When the fresh statistics match a stored record on both `stat1` and
`stat2`, `analyze_stock` leaves `all_stocks` exactly as it was and returns
the freshly computed dictionary. -/
theorem analyze_stock_duplicate_frame (all_stocks : List SumStats) (r : SumStats)
    (h : ∃ s ∈ all_stocks, s.stat1 = r.stat1 ∧ s.stat2 = r.stat2) :
    analyze_stock_step all_stocks r = (all_stocks, r) := by
  obtain ⟨s, hs, h1, h2⟩ := h
  unfold analyze_stock_step
  rw [if_pos (analyze_scan_eq_true s hs h1 h2)]

/-- C8 witness: re-analyzing a record already stored leaves the singleton
list unchanged and returns the fresh record. -/
theorem analyze_stock_duplicate_frame_witness :
    analyze_stock_step [recA] recA = ([recA], recA) :=
  analyze_stock_duplicate_frame [recA] recA ⟨recA, by simp⟩

/-! ### C7 — the main-menu validation loop -/

/-- C7.  One round of the main-menu prompt: the loop accepts and proceeds
with choice `k` exactly when `int` applied to the stripped reply yields `k`
with `1 ≤ k ≤ 4`; a reply that fails to parse or is out of range leaves the
loop scanning the remaining replies with no other state. -/
theorem main_menu_loop_spec (s : String) (rest : List String) :
    (∀ k : ℤ, pyInt (pyStrip s) = some k →
       ((1 ≤ k ∧ k ≤ 4) → mainMenuLoop (s :: rest) = some (k, rest)) ∧
       (¬(1 ≤ k ∧ k ≤ 4) → mainMenuLoop (s :: rest) = mainMenuLoop rest)) ∧
    (pyInt (pyStrip s) = none → mainMenuLoop (s :: rest) = mainMenuLoop rest) := by
  refine ⟨fun k hk => ⟨fun hr => ?_, fun hr => ?_⟩, fun hk => ?_⟩
  · simp [mainMenuLoop, menuChoiceLoop, hk, hr]
  · simp [mainMenuLoop, menuChoiceLoop, hk, hr]
  · simp [mainMenuLoop, menuChoiceLoop, hk]

/-- C7 witness: the reply `" 3 "` is accepted as choice 3 with no further
prompting; the conclusion is obtained from the loop theorem at that input. -/
theorem main_menu_loop_spec_witness :
    mainMenuLoop [" 3 "] = some (3, []) :=
  ((main_menu_loop_spec " 3 " []).1 3 (by decide)).1 (by decide)

/-! ### C10 — `exit_menu` -/

/-- C10.  `exit_menu` calls `sys.exit` exactly on a reply whose stripped,
lowercased form is `"y"`, returns to its caller exactly on `"n"`, and
re-prompts on anything else; in particular the process terminates through
`exit_menu` only when some reply normalises to `"y"`. -/
theorem exit_menu_spec :
    (∀ (s : String) (rest : List String),
       (normAnswer s = "y" → exit_menu (s :: rest) = some ExitResult.exited) ∧
       (normAnswer s = "n" → exit_menu (s :: rest) = some ExitResult.returned) ∧
       (normAnswer s ≠ "y" → normAnswer s ≠ "n" →
          exit_menu (s :: rest) = exit_menu rest)) ∧
    (∀ inputs : List String, exit_menu inputs = some ExitResult.exited →
       ∃ s ∈ inputs, normAnswer s = "y") := by
  constructor
  · intro s rest
    refine ⟨fun hy => ?_, fun hn => ?_, fun hy hn => ?_⟩
    · simp [exit_menu, hy]
    · have hyn : normAnswer s ≠ "y" := by simp [hn]
      simp [exit_menu, hn, hyn]
    · simp [exit_menu, hy, hn]
  · intro inputs
    induction inputs with
    | nil => intro h; simp [exit_menu] at h
    | cons s rest ih =>
      intro h
      by_cases hy : normAnswer s = "y"
      · exact ⟨s, List.mem_cons_self s rest, hy⟩
      · by_cases hn : normAnswer s = "n"
        · simp [exit_menu, hy, hn] at h
        · simp only [exit_menu, hy, hn, if_false] at h
          obtain ⟨u, hu, hval⟩ := ih h
          exact ⟨u, List.mem_cons_of_mem s hu, hval⟩

/-- C10 witness: `" Y "` normalises to `"y"` and exits, `"N"` returns, and an
unrecognised reply passes control to the next reply. -/
theorem exit_menu_spec_witness :
    exit_menu [" Y "] = some ExitResult.exited ∧
    exit_menu ["N"] = some ExitResult.returned ∧
    exit_menu ["maybe", "N"] = exit_menu ["N"] :=
  ⟨(exit_menu_spec.1 " Y " []).1 (by decide),
   (exit_menu_spec.1 "N" []).2.1 (by decide),
   (exit_menu_spec.1 "maybe" ["N"]).2.2 (by decide) (by decide)⟩

/-! ### CSV helper lemmas -/

/-- The second cleaned title is `date_range`, so the new row's `date_range`
field is the record's `stat2`. -/
lemma rowOf_lookup_date_range (r : SumStats) :
    (rowOf r).lookup "date_range" = some r.stat2 := rfl

/-! ### C3 — `save_one_stock_to_csv` -/

/-- C3.  The per-stock save keys on the `date_range` column: when the target
file (at `save_one_filename r`) already holds a row whose `date_range`
equals the new row's, the function reports it as already saved and leaves
the file untouched; otherwise it appends exactly the one new row, writing
the header first exactly when the file did not exist. -/
theorem save_one_stock_to_csv_spec (file : Option CsvFile) (r : SumStats) :
    (rowOf r).lookup "date_range" = some r.stat2 ∧
    (file = none →
       save_one_stock_to_csv file r =
         (some ⟨true, [rowOf r]⟩, SaveOutcome.appended)) ∧
    (∀ f, file = some f →
       ((∃ row ∈ f.rows, row.lookup "date_range" = some r.stat2) →
          save_one_stock_to_csv file r = (some f, SaveOutcome.alreadySaved)) ∧
       ((¬∃ row ∈ f.rows, row.lookup "date_range" = some r.stat2) →
          save_one_stock_to_csv file r =
            (some ⟨f.hasHeader, f.rows ++ [rowOf r]⟩, SaveOutcome.appended))) := by
  refine ⟨rowOf_lookup_date_range r, fun hf => ?_, fun f hf => ⟨fun hdup => ?_, fun hdup => ?_⟩⟩
  · subst hf; rfl
  · subst hf
    obtain ⟨row, hrow, hval⟩ := hdup
    have hscan : f.rows.any
        (fun row => row.lookup "date_range" == (rowOf r).lookup "date_range") = true :=
      List.any_eq_true.2 ⟨row, hrow, by rw [hval, rowOf_lookup_date_range]; exact beq_self_eq_true _⟩
    simp [save_one_stock_to_csv, hscan]
  · subst hf
    have hscan : f.rows.any
        (fun row => row.lookup "date_range" == (rowOf r).lookup "date_range") = false := by
      rw [Bool.eq_false_iff]
      intro hcon
      obtain ⟨row, hrow, hval⟩ := List.any_eq_true.1 hcon
      rw [rowOf_lookup_date_range] at hval
      exact hdup ⟨row, hrow, by simpa using hval⟩
    simp [save_one_stock_to_csv, hscan]

/-- C3 witness: saving a record to a missing file creates header plus one
row; saving it again to the resulting file is reported as already saved and
changes nothing. -/
theorem save_one_stock_to_csv_spec_witness :
    save_one_stock_to_csv none recA =
      (some ⟨true, [rowOf recA]⟩, SaveOutcome.appended) ∧
    save_one_stock_to_csv (some ⟨true, [rowOf recA]⟩) recA =
      (some ⟨true, [rowOf recA]⟩, SaveOutcome.alreadySaved) :=
  ⟨(save_one_stock_to_csv_spec none recA).2.1 rfl,
   ((save_one_stock_to_csv_spec (some ⟨true, [rowOf recA]⟩) recA).2.2 _ rfl).1
     ⟨rowOf recA, List.mem_singleton.2 rfl, rowOf_lookup_date_range recA⟩⟩

/-! ### C2 — corrected: only the per-stock save deduplicates -/

/-- C2 counterexample.  `save_all_to_csv` performs no duplicate check: with
the target file already containing the row of `recA`, saving the session
list `[recA]` appends that row again, so the file ends up holding it twice —
refuting the claim that every CSV save skips rows already present. -/
theorem save_all_readds_existing_row :
    rowOf recA ∈ (CsvFile.mk true [rowOf recA]).rows ∧
    save_all_to_csv (some (CsvFile.mk true [rowOf recA])) [recA] =
      some (CsvFile.mk true [rowOf recA, rowOf recA]) ∧
    (((save_all_to_csv (some (CsvFile.mk true [rowOf recA])) [recA]).elim
        [] CsvFile.rows).count (rowOf recA)) = 2 :=
  ⟨List.mem_singleton.2 rfl, rfl, by decide⟩

/-- C2 amended.  Only the per-stock save checks the target CSV before
appending (keyed on `date_range`); `save_all_to_csv` reads the file only to
learn whether it exists — deciding whether a header is written — and then
appends one row per analyzed stock unconditionally, including rows already
present in the file. -/
theorem csv_save_dedup_amended (r : SumStats) (f : CsvFile)
    (all_stocks : List SumStats) :
    ((∃ row ∈ f.rows, row.lookup "date_range" = some r.stat2) →
       (save_one_stock_to_csv (some f) r).1 = some f) ∧
    save_all_to_csv (some f) all_stocks =
      some ⟨f.hasHeader, f.rows ++ all_stocks.map rowOf⟩ ∧
    save_all_to_csv none all_stocks = some ⟨true, all_stocks.map rowOf⟩ := by
  refine ⟨fun hdup => ?_, rfl, rfl⟩
  obtain ⟨row, hrow, hval⟩ := hdup
  have hscan : f.rows.any
      (fun row => row.lookup "date_range" == (rowOf r).lookup "date_range") = true :=
    List.any_eq_true.2 ⟨row, hrow, by rw [hval, rowOf_lookup_date_range]; exact beq_self_eq_true _⟩
  simp [save_one_stock_to_csv, hscan]

/-- C2 amended witness: the dedup hypothesis of the per-stock branch is
discharged at a concrete file holding the row of `recA`. -/
theorem csv_save_dedup_amended_witness :
    (save_one_stock_to_csv (some (CsvFile.mk true [rowOf recA])) recA).1 =
      some (CsvFile.mk true [rowOf recA]) :=
  (csv_save_dedup_amended recA (CsvFile.mk true [rowOf recA]) []).1
    ⟨rowOf recA, List.mem_singleton.2 rfl, rowOf_lookup_date_range recA⟩

/-! ### String lemmas for the filename normalisation -/

lemma underscoreSpace_ne_space (c : Char) : underscoreSpace c ≠ ' ' := by
  unfold underscoreSpace
  split
  · decide
  · assumption

lemma pyReplaceSpace_no_space (x : String) :
    pyContainsSpace (pyReplaceSpace x) = false := by
  rw [Bool.eq_false_iff]
  intro h
  obtain ⟨c, hc, hval⟩ := List.any_eq_true.1 h
  obtain ⟨d, _, rfl⟩ := List.mem_map.1 hc
  exact underscoreSpace_ne_space d (by simpa using hval)

lemma pyEndsWith_iff (s u : String) : pyEndsWith s u = true ↔ u.data <:+ s.data := by
  unfold pyEndsWith
  exact List.isSuffixOf_iff_suffix

lemma pyEndsWith_append_csv (t : String) : pyEndsWith (t ++ ".csv") ".csv" = true := by
  rw [pyEndsWith_iff]
  exact List.suffix_append t.data _

lemma pyReplaceSpace_keeps_csv (x : String) (h : pyEndsWith x ".csv" = true) :
    pyEndsWith (pyReplaceSpace x) ".csv" = true := by
  rw [pyEndsWith_iff] at h ⊢
  have hmap : (".csv".data.map underscoreSpace) <:+ (x.data.map underscoreSpace) :=
    h.map underscoreSpace
  simpa using hmap

lemma csv_suffix_ne_empty (x : String) (h : pyEndsWith x ".csv" = true) : x ≠ "" := by
  rw [pyEndsWith_iff] at h
  intro hx
  subst hx
  simpa using h.length_le

/-! ### C9 — the filename normalisation of `save_all_to_csv` -/

/-- C9.  The filename loop of `save_all_to_csv` re-prompts while the stripped
reply is empty; once a non-empty reply arrives it appends `".csv"` exactly
when that suffix is missing and replaces every space with an underscore, so
the file written is always at a non-empty, space-free name ending in
`".csv"`. -/
theorem save_all_filename_spec (s : String) (rest : List String) :
    (pyStrip s = "" → save_all_filename (s :: rest) = save_all_filename rest) ∧
    (pyStrip s ≠ "" →
       save_all_filename (s :: rest) =
         some (let t := pyStrip s
               let t1 := if pyEndsWith t ".csv" then t else t ++ ".csv"
               if pyContainsSpace t1 then pyReplaceSpace t1 else t1)) ∧
    (∀ (inputs : List String) (name : String), save_all_filename inputs = some name →
       name ≠ "" ∧ pyEndsWith name ".csv" = true ∧ pyContainsSpace name = false) := by
  refine ⟨fun h => by simp [save_all_filename, h], fun h => by simp [save_all_filename, h], ?_⟩
  intro inputs
  induction inputs with
  | nil => intro name h; simp [save_all_filename] at h
  | cons u rest ih =>
    intro name h
    by_cases hu : pyStrip u = ""
    · rw [show save_all_filename (u :: rest) = save_all_filename rest by
        simp [save_all_filename, hu]] at h
      exact ih name h
    · rw [show save_all_filename (u :: rest) =
          some (let t := pyStrip u
                let t1 := if pyEndsWith t ".csv" then t else t ++ ".csv"
                if pyContainsSpace t1 then pyReplaceSpace t1 else t1) by
        simp [save_all_filename, hu]] at h
      simp only [Option.some.injEq] at h
      subst h
      set t := pyStrip u with ht
      set t1 := if pyEndsWith t ".csv" then t else t ++ ".csv" with ht1
      have hcsv : pyEndsWith t1 ".csv" = true := by
        rw [ht1]
        split
        · assumption
        · exact pyEndsWith_append_csv t
      by_cases hsp : pyContainsSpace t1 = true
      · rw [if_pos hsp]
        have hend := pyReplaceSpace_keeps_csv t1 hcsv
        exact ⟨csv_suffix_ne_empty _ hend, hend, pyReplaceSpace_no_space t1⟩
      · rw [if_neg hsp]
        rw [Bool.not_eq_true] at hsp
        exact ⟨csv_suffix_ne_empty _ hcsv, hcsv, hsp⟩

/-- C9 witness: a blank reply re-prompts; the reply `"my stocks"` yields the
file name `"my_stocks.csv"`, which is non-empty, ends in `".csv"` and holds
no space. -/
theorem save_all_filename_spec_witness :
    save_all_filename ["  ", "my stocks"] = save_all_filename ["my stocks"] ∧
    save_all_filename ["my stocks"] = some "my_stocks.csv" ∧
    ("my_stocks.csv" : String) ≠ "" ∧
    pyEndsWith "my_stocks.csv" ".csv" = true ∧
    pyContainsSpace "my_stocks.csv" = false := by
  have h1 := (save_all_filename_spec "  " ["my stocks"]).1 (by decide)
  have h2 := (save_all_filename_spec "my stocks" []).2.1 (by decide)
  have h3 := (save_all_filename_spec "my stocks" []).2.2 ["my stocks"] "my_stocks.csv"
    (by decide)
  exact ⟨h1, by decide, h3.1, h3.2.1, h3.2.2⟩

/-! ### Lemmas about the `%Y-%m-%d` parser -/

lemma daysInMonth_le_31 (y m : ℕ) : daysInMonth y m ≤ 31 := by
  unfold daysInMonth
  split
  · split <;> omega
  · split <;> omega

lemma fieldOk_eq_true {cs : List Char} {hi : ℕ} :
    fieldOk cs hi = true ↔
      (cs.length = 1 ∨ cs.length = 2) ∧ cs.all isDigitChar = true ∧
        1 ≤ digitsVal cs ∧ digitsVal cs ≤ hi := by
  unfold fieldOk
  simp only [Bool.and_eq_true, decide_eq_true_eq, Bool.or_eq_true, List.all_eq_true]
  tauto

lemma length_eq_four {α : Type} {l : List α} (h : l.length = 4) :
    ∃ a b c d : α, l = [a, b, c, d] := by
  match l, h with
  | [a, b, c, d], _ => exact ⟨a, b, c, d, rfl⟩

lemma takeWhile_append_all {p : Char → Bool} {ms : List Char}
    (h : ∀ c ∈ ms, p c = true) {x : Char} (hx : p x = false) (tl : List Char) :
    (ms ++ x :: tl).takeWhile p = ms := by
  induction ms with
  | nil => simp [List.takeWhile, hx]
  | cons a ms ih =>
    have ha : p a = true := h a (List.mem_cons_self a ms)
    simp only [List.cons_append, List.takeWhile_cons, ha, if_true]
    rw [ih (fun c hc => h c (List.mem_cons_of_mem a hc))]

lemma dropWhile_append_all {p : Char → Bool} {ms : List Char}
    (h : ∀ c ∈ ms, p c = true) {x : Char} (hx : p x = false) (tl : List Char) :
    (ms ++ x :: tl).dropWhile p = x :: tl := by
  induction ms with
  | nil => simp [List.dropWhile, hx]
  | cons a ms ih =>
    have ha : p a = true := h a (List.mem_cons_self a ms)
    simp only [List.cons_append, List.dropWhile_cons, ha, if_true]
    exact ih (fun c hc => h c (List.mem_cons_of_mem a hc))

lemma digit_ne_dash {c : Char} (h : isDigitChar c = true) : decide (c ≠ '-') = true := by
  rw [decide_eq_true_eq]
  intro hc
  subst hc
  simp [isDigitChar] at h

/-- Inversion of a successful `parseYMD` run: the string decomposes into the
three fields matched by the compiled regex. -/
lemma parseYMD_inv {cs : List Char} {y m d : ℕ}
    (h : parseYMD cs = some (y, m, d)) :
    ∃ ys ms ds : List Char,
      cs = ys ++ '-' :: ms ++ '-' :: ds ∧ ys.length = 4 ∧
      ys.all isDigitChar = true ∧ fieldOk ms 12 = true ∧ fieldOk ds 31 = true ∧
      digitsVal ys = y ∧ digitsVal ms = m ∧ digitsVal ds = d := by
  unfold parseYMD at h
  split at h
  case h_2 => exact absurd h (by simp)
  case h_1 y1 y2 y3 y4 rest =>
    split at h
    case isFalse => exact absurd h (by simp)
    case isTrue hdig =>
      split at h
      case h_2 => exact absurd h (by simp)
      case h_1 dcs hdrop =>
        split at h
        case isFalse => exact absurd h (by simp)
        case isTrue hfields =>
          simp only [Option.some.injEq, Prod.mk.injEq] at h
          obtain ⟨hy, hm, hd⟩ := h
          rw [Bool.and_eq_true] at hfields
          obtain ⟨hf1, hf2⟩ := hfields
          refine ⟨[y1, y2, y3, y4], rest.takeWhile (· ≠ '-'), dcs, ?_, rfl, ?_,
            hf1, hf2, hy, hm, hd⟩
          · have hsplit := List.takeWhile_append_dropWhile (p := (· ≠ '-')) (l := rest)
            rw [hdrop] at hsplit
            simp only [List.cons_append, List.nil_append, List.cons.injEq, true_and]
            exact hsplit.symm
          · simp only [List.all_cons, List.all_nil, Bool.and_true]
            simp only [Bool.and_eq_true] at hdig ⊢
            tauto

/-- The three regex fields determine a successful parse. -/
lemma parseYMD_of_fields {ys ms ds : List Char}
    (hy : ys.length = 4) (hyd : ys.all isDigitChar = true)
    (hm : fieldOk ms 12 = true) (hd : fieldOk ds 31 = true) :
    parseYMD (ys ++ '-' :: ms ++ '-' :: ds) =
      some (digitsVal ys, digitsVal ms, digitsVal ds) := by
  obtain ⟨a, b, c, e, rfl⟩ := length_eq_four hy
  have hmd : ms.all isDigitChar = true := (fieldOk_eq_true.1 hm).2.1
  have hmdash : ∀ ch ∈ ms, decide (ch ≠ '-') = true := fun ch hch =>
    digit_ne_dash (List.all_eq_true.1 hmd ch hch)
  have hdashf : decide ((('-' : Char) ≠ '-')) = false := by decide
  have htake : (ms ++ '-' :: ds).takeWhile (fun x => decide (x ≠ '-')) = ms :=
    takeWhile_append_all hmdash hdashf ds
  have hdropw : (ms ++ '-' :: ds).dropWhile (fun x => decide (x ≠ '-')) = '-' :: ds :=
    dropWhile_append_all hmdash hdashf ds
  have hyd4 : (isDigitChar a && isDigitChar b && isDigitChar c && isDigitChar e)
      = true := by
    simp only [List.all_eq_true] at hyd
    simp [Bool.and_eq_true]
    exact ⟨⟨⟨hyd a (by simp), hyd b (by simp)⟩, hyd c (by simp)⟩, hyd e (by simp)⟩
  simp only [List.cons_append, List.nil_append]
  simp only [parseYMD, htake, hdropw, hyd4, if_true, hm, hd]
  simp

/-! ### C6 — corrected: `validate_date` accepts unpadded months and days -/

/-- C6 counterexample.  `"2023-1-5"` is not in zero-padded `YYYY-MM-DD`
shape, yet `validate_date` parses it (CPython's `%m` and `%d` accept one- or
two-digit fields), so the function does not return `None` on every string
that is not a well-formed `YYYY-MM-DD` date; the zero-padded `"2023-01-05"`
is shown alongside for contrast. -/
theorem validate_date_accepts_unpadded :
    validate_date "2023-1-5" = some ⟨2023, 1, 5⟩ ∧
    strictYMDOk "2023-1-5" = false ∧
    strictYMDOk "2023-01-05" = true := by decide

/-- C6 amended.  `validate_date` returns a parsed date exactly on strings of
the form `year-month-day` where the year has exactly four digits, month and
day have one or two digits (zero padding optional), and the values form a
real calendar date with year at least 1; on every other string — and it
never raises — it prints a message and returns `None`. -/
theorem validate_date_flex_spec (s : String) (dt : PyDate) :
    validate_date s = some dt ↔ FlexYMD s dt := by
  constructor
  · intro h
    unfold validate_date at h
    split at h
    case h_2 => exact absurd h (by simp)
    case h_1 y m d hp =>
      split at h
      case isFalse => exact absurd h (by simp)
      case isTrue hc =>
        simp only [Option.some.injEq] at h
        subst h
        obtain ⟨ys, ms, ds, hcs, hylen, hyd, hm, hd, hvy, hvm, hvd⟩ := parseYMD_inv hp
        obtain ⟨hmlen, hmd, hm1, hm12⟩ := fieldOk_eq_true.1 hm
        obtain ⟨hdlen, hdd, hd1, _⟩ := fieldOk_eq_true.1 hd
        refine ⟨ys, ms, ds, hcs, hylen, hyd, hmlen, hmd, hdlen, hdd, hvy, hvm, hvd,
          hc.1, ?_, ?_, ?_, hc.2⟩
        · show 1 ≤ m
          omega
        · show m ≤ 12
          omega
        · show 1 ≤ d
          omega
  · rintro ⟨ys, ms, ds, hcs, hylen, hyd, hmlen, hmd, hdlen, hdd, hvy, hvm, hvd,
      hy1, hm1, hm12, hd1, hdim⟩
    obtain ⟨Y, M, D⟩ := dt
    have hvy2 : digitsVal ys = Y := hvy
    have hvm2 : digitsVal ms = M := hvm
    have hvd2 : digitsVal ds = D := hvd
    have hy12 : 1 ≤ Y := hy1
    have hm12b : 1 ≤ M ∧ M ≤ 12 := ⟨hm1, hm12⟩
    have hd12 : 1 ≤ D := hd1
    have hdim2 : D ≤ daysInMonth Y M := hdim
    have hm : fieldOk ms 12 = true :=
      fieldOk_eq_true.2 ⟨hmlen, hmd, by omega, by omega⟩
    have hd : fieldOk ds 31 = true := by
      have h31 := daysInMonth_le_31 Y M
      exact fieldOk_eq_true.2 ⟨hdlen, hdd, by omega, by omega⟩
    unfold validate_date
    rw [hcs, parseYMD_of_fields hylen hyd hm hd, hvy, hvm, hvd]
    show (if 1 ≤ Y ∧ D ≤ daysInMonth Y M then some (PyDate.mk Y M D) else none) =
      some (PyDate.mk Y M D)
    rw [if_pos ⟨hy1, hdim⟩]

/-- C6 amended witness: the unpadded leap-day string is accepted, so it
satisfies the declarative description. -/
theorem validate_date_flex_spec_witness :
    FlexYMD "2024-2-29" ⟨2024, 2, 29⟩ :=
  (validate_date_flex_spec "2024-2-29" ⟨2024, 2, 29⟩).1 (by decide)

/-! ### C4 — shape and content of `stock_summary_statistics` -/

/-- C4.  `stock_summary_statistics` returns `None` exactly when the fetched
table is empty; on a non-empty table it returns a record of exactly fourteen
formatted display strings `stat1`–`stat14`: ticker with company name, date
range of the fetched rows, trading-day count, first opening and last closing
price, average/highest/lowest closing price, highest/lowest intraday price,
daily and annualized volatility, total return and average daily volume. -/
theorem stock_summary_statistics_spec (t : TickerInfo) (data : List DayBar) :
    (stock_summary_statistics t data = none ↔ data = []) ∧
    (∀ h : data ≠ [],
       ∃ r, stock_summary_statistics t data = some r ∧
         (statsList r).length = 14 ∧
         r.stat1 = t.ticker ++ " (" ++ t.long_name ++ ")" ∧
         r.stat2 = dateStr (data.head h).date ++ " to " ++
           dateStr (data.getLast h).date ∧
         r.stat3 = groupDigits data.length ∧
         r.stat4 = fmtDollar (data.head h).Open ∧
         r.stat5 = fmtDollar (data.getLast h).Close ∧
         r.stat6 = fmtDollar (qmean (data.map DayBar.Close)) ∧
         r.stat7 = fmtDollar (qmax (data.map DayBar.Close)) ∧
         r.stat8 = fmtDollar (qmax (data.map DayBar.High)) ∧
         r.stat9 = fmtDollar (qmin (data.map DayBar.Close)) ∧
         r.stat10 = fmtDollar (qmin (data.map DayBar.Low)) ∧
         r.stat11 = fmtVol (sample_variance (pct_change (data.map DayBar.Close))) ∧
         r.stat12 = fmtVol (252 * sample_variance (pct_change (data.map DayBar.Close))) ∧
         r.stat13 = fmtPercent
           (((data.getLast h).Close - (data.head h).Open) / (data.head h).Open * 100) ∧
         r.stat14 = fmtRoundGrouped (qmean (data.map DayBar.Volume))) := by
  constructor
  · cases data with
    | nil => simp [stock_summary_statistics]
    | cons d0 rest => simp [stock_summary_statistics]
  · intro h
    cases data with
    | nil => exact absurd rfl h
    | cons d0 rest =>
      exact ⟨_, rfl, rfl, rfl, rfl, rfl, rfl, rfl, rfl, rfl, rfl, rfl, rfl, rfl,
        rfl, rfl, rfl⟩

/-- C4 witness: on a concrete two-day table the function returns a record,
and its value list has exactly fourteen entries. -/
theorem stock_summary_statistics_spec_witness :
    (stock_summary_statistics tickerAAPL [] = none ↔ ([] : List DayBar) = []) ∧
    ∃ r, stock_summary_statistics tickerAAPL [barA, barB] = some r ∧
      (statsList r).length = 14 := by
  refine ⟨(stock_summary_statistics_spec tickerAAPL []).1, ?_⟩
  obtain ⟨r, hr, hlen, _⟩ :=
    (stock_summary_statistics_spec tickerAAPL [barA, barB]).2 (List.cons_ne_nil _ _)
  exact ⟨r, hr, hlen⟩

/-! ### Volatility lemmas -/

lemma sample_variance_nonneg (l : List ℚ) : 0 ≤ sample_variance l := by
  unfold sample_variance
  split
  case isTrue => exact le_refl 0
  case isFalse hlen =>
    apply div_nonneg
    · apply List.sum_nonneg
      intro x hx
      obtain ⟨y, _, rfl⟩ := List.mem_map.1 hx
      positivity
    · have h2 : 2 ≤ l.length := by omega
      have h2q : (2 : ℚ) ≤ (l.length : ℚ) := by exact_mod_cast h2
      linarith

/-- The integer computation in `ratSqrtFloorScaled` really is the floor of
the scaled real square root. -/
lemma ratSqrtFloorScaled_eq (q : ℚ) (hq : 0 ≤ q) :
    ratSqrtFloorScaled q = ⌊(10 : ℝ) ^ 6 * Real.sqrt (q : ℝ)⌋₊ := by
  have hdpos : 0 < q.den := q.pos
  have hdR : (0 : ℝ) < (q.den : ℝ) := by exact_mod_cast hdpos
  have hnum : ((q.num.toNat : ℕ) : ℝ) = ((q.num : ℤ) : ℝ) := by
    exact_mod_cast congrArg (Int.cast : ℤ → ℝ)
      (Int.toNat_of_nonneg (Rat.num_nonneg.2 hq))
  have hcast : (q : ℝ) = (q.num.toNat : ℝ) / (q.den : ℝ) := by
    rw [Rat.cast_def, hnum]
  have hN : ((10 ^ 12 * q.num.toNat * q.den : ℕ) : ℝ) =
      ((10 : ℝ) ^ 6 * (q.den : ℝ)) ^ 2 * ((q.num.toNat : ℝ) / (q.den : ℝ)) := by
    push_cast
    field_simp
    ring
  have hkey : (10 : ℝ) ^ 6 * Real.sqrt (q : ℝ) =
      Real.sqrt ((10 ^ 12 * q.num.toNat * q.den : ℕ) : ℝ) / (q.den : ℝ) := by
    rw [hcast, hN, Real.sqrt_mul (by positivity), Real.sqrt_sq (by positivity)]
    field_simp
    ring
  rw [hkey, Nat.floor_div_nat, Real.nat_floor_real_sqrt_eq_nat_sqrt]
  rfl

/-! ### C5 — the volatility statistics -/

/-- C5.  On every non-empty fetched series, `stat11` is the 6-decimal
rendering of the sample standard deviation of the daily fractional change of
the closing price (`returns.std()` = `√(sample variance)`), and `stat12` is
the rendering of that standard deviation scaled by `√252`
(`returns.std() * 252 ** 0.5` = `√(252 · variance)`): the digits shown are
the floor of `10 ^ 6` times those real numbers. -/
theorem volatility_spec (t : TickerInfo) (data : List DayBar) (h : data ≠ []) :
    ∃ r, stock_summary_statistics t data = some r ∧
      r.stat11 = fmtVol (sample_variance (pct_change (data.map DayBar.Close))) ∧
      r.stat12 = fmtVol (252 * sample_variance (pct_change (data.map DayBar.Close))) ∧
      ratSqrtFloorScaled (sample_variance (pct_change (data.map DayBar.Close))) =
        ⌊(10 : ℝ) ^ 6 *
          Real.sqrt ((sample_variance (pct_change (data.map DayBar.Close)) : ℚ) : ℝ)⌋₊ ∧
      ratSqrtFloorScaled (252 * sample_variance (pct_change (data.map DayBar.Close))) =
        ⌊(10 : ℝ) ^ 6 * (Real.sqrt 252 *
          Real.sqrt ((sample_variance (pct_change (data.map DayBar.Close)) : ℚ) : ℝ))⌋₊ := by
  obtain ⟨d0, rest, rfl⟩ := List.exists_cons_of_ne_nil h
  have hvnn : 0 ≤ sample_variance (pct_change ((d0 :: rest).map DayBar.Close)) :=
    sample_variance_nonneg _
  refine ⟨_, rfl, rfl, rfl, ratSqrtFloorScaled_eq _ hvnn, ?_⟩
  have h252 : ((252 * sample_variance (pct_change ((d0 :: rest).map DayBar.Close)) : ℚ) : ℝ)
      = 252 * ((sample_variance (pct_change ((d0 :: rest).map DayBar.Close)) : ℚ) : ℝ) := by
    push_cast
    ring
  rw [ratSqrtFloorScaled_eq _ (by positivity), h252, Real.sqrt_mul (by norm_num)]

/-- C5 witness: the volatility fields of a concrete three-day series are the
renderings given by the theorem. -/
theorem volatility_spec_witness :
    ∃ r, stock_summary_statistics tickerAAPL [barA, barB, barC] = some r ∧
      r.stat11 =
        fmtVol (sample_variance (pct_change ([barA, barB, barC].map DayBar.Close))) := by
  obtain ⟨r, hr, h11, _⟩ :=
    volatility_spec tickerAAPL [barA, barB, barC] (List.cons_ne_nil _ _)
  exact ⟨r, hr, h11⟩

end StockExplorer
